import Mathlib

/-!
# pvfmm: `FMM_Cheb` (include/fmm_cheb.hpp)

A shallow embedding of the Chebyshev translation engine's output merger,
`FMM_Cheb::CopyOutput`, together with the parts of the node interface it touches.

* Nodes are reached through pointers (`FMMNode**`), so the node storage is a heap
  `Ptr → FMMNode` and the array `nodes` of length `n` is the list of its `n` pointers;
  the same pointer may occur several times.
* `Real_t` is a type parameter, as in the C++ template; the loop only moves values.
* `InitMultipole` and the list setup steps are only declared in fmm_cheb.hpp; what is
  proved about them is proved of definitions that follow the specification's wording,
  each marked `Modelled from the spec:`.
-/

namespace pvfmm

/-- Modelled from the spec: the dense vector `Vector<T>` of the matrix/vector primitives
(declared in vector.hpp, outside fmm_cheb.hpp). Its observable state is the sequence of
its entries; `Dim()` is their number. -/
structure Vector (T : Type) where
  data : List T
deriving DecidableEq

/-- `Vector<T>::Dim()`. -/
def Vector.Dim {T : Type} (v : Vector T) : Nat := v.data.length

/-- Modelled from the spec: `Vector<T>::ReInit(dim_)` replaces the storage by fresh storage
of `dim_` entries (the spec's "reinitialization of that node's storage"); fresh entries are
represented by `default`. `ReInit(0)` is the empty vector. -/
def Vector.ReInit {T : Type} [Inhabited T] (_v : Vector T) (dim_ : Nat) : Vector T :=
  ⟨List.replicate dim_ default⟩

/-- Modelled from the spec: `Vector<T>::operator=`, a deep copy of the right-hand side
(the spec's "copies the output into the field vector"). -/
def Vector.assign {T : Type} (_v : Vector T) (V : Vector T) : Vector T :=
  ⟨V.data⟩

/-- Modelled from the spec: the kernel descriptor, which "declares vector dimensionality
of sources/targets" (declared in kernel.hpp, outside fmm_cheb.hpp): `ker_dim[0]` is the
source and `ker_dim[1]` the target dimension. -/
structure Kernel where
  ker_dim : Fin 2 → Int

/-- The translation engine object: `kernel` is inherited from `FMM_Pts`, `cheb_deg` is the
private member of `FMM_Cheb`. -/
structure FMM_Cheb where
  kernel : Kernel
  cheb_deg : Int

/-- `FMM_Cheb::FMMData`: the FMM specific data of a node. `cheb_out` is declared in
`FMM_Cheb::FMMData`; `upward_equiv` stands for the inherited `FMM_Pts::FMMData` part
(Modelled from the spec: the upward-pass compressed representation of the node). -/
structure FMM_Cheb.FMMData (Real_t : Type) where
  upward_equiv : Vector Real_t
  cheb_out : Vector Real_t
deriving DecidableEq

/-- Modelled from the spec: the part of the octree node interface the engine uses
(declared in cheb_node.hpp, outside fmm_cheb.hpp): the leaf and ghost flags, `DataDOF()`,
the Chebyshev coefficient vector `ChebData()` and the FMM data `FMMData()`. -/
structure FMMNode (Real_t : Type) where
  IsLeaf : Bool
  IsGhost : Bool
  DataDOF : Int
  ChebData : Vector Real_t
  FMMData : FMM_Cheb.FMMData Real_t
deriving DecidableEq

/-- Node pointers (`FMMNode*`). -/
abbrev Ptr := Nat

/-- The node storage: the node each pointer points to. -/
abbrev Heap (Real_t : Type) := Ptr → FMMNode Real_t

/-- Store `nd` at `p`. -/
def Heap.write {Real_t : Type} (mem : Heap Real_t) (p : Ptr) (nd : FMMNode Real_t) :
    Heap Real_t :=
  fun q => if q = p then nd else mem q

/-- The body of the loop of `FMM_Cheb::CopyOutput` on the node `nodes[i]` points to
(fmm_cheb.hpp, lines 105-111). -/
def FMM_Cheb.CopyOutput_node {Real_t : Type} [Inhabited Real_t] (self : FMM_Cheb)
    (node : FMMNode Real_t) : FMMNode Real_t :=
  -- nodes[i]->DataDOF()=this->kernel.ker_dim[1];
  let node := { node with DataDOF := self.kernel.ker_dim 1 }
  -- if(nodes[i]->IsLeaf() && !nodes[i]->IsGhost())
  if node.IsLeaf && !node.IsGhost then
    let cheb_data := node.ChebData
    let cheb_out := node.FMMData.cheb_out
    -- if(cheb_data.Dim()!=cheb_out.Dim()) cheb_data.ReInit(0);
    let cheb_data := if cheb_data.Dim != cheb_out.Dim then cheb_data.ReInit 0 else cheb_data
    -- cheb_data = cheb_out;
    { node with ChebData := cheb_data.assign cheb_out }
  else node

/-- The loop of `FMM_Cheb::CopyOutput(nodes, n)`: `for(size_t i=0;i<n;i++)`, each
iteration updating the node `nodes[i]` points to. -/
def FMM_Cheb.CopyOutput_loop {Real_t : Type} [Inhabited Real_t] (self : FMM_Cheb)
    (nodes : List Ptr) (mem : Heap Real_t) : Heap Real_t :=
  nodes.foldl (fun m p => m.write p (self.CopyOutput_node (m p))) mem

/-- `FMM_Cheb::CopyOutput(nodes, n)`: the loop followed by the call of the base class,
`FMM_Pts<FMMNode>::CopyOutput(nodes,n)`, which is defined outside fmm_cheb.hpp and is taken
as a parameter. -/
def FMM_Cheb.CopyOutput {Real_t : Type} [Inhabited Real_t] (self : FMM_Cheb)
    (FMM_Pts_CopyOutput : List Ptr → Heap Real_t → Heap Real_t)
    (nodes : List Ptr) (mem : Heap Real_t) : Heap Real_t :=
  FMM_Pts_CopyOutput nodes (self.CopyOutput_loop nodes mem)

/-! ## The multipole initializer (spec section 4.4) -/

/-- Modelled from the spec: the fixed linear map of the multipole initializer (the body of
`InitMultipole` and its matrix are in fmm_cheb.txx, outside fmm_cheb.hpp). `M`
holds the rows of the fixed matrix and `scal level` is the physical scale factor of the
level, the only way the level enters. -/
structure S2U (Real_t : Type) where
  M : List (List Real_t)
  scal : Int → Real_t

/-- Modelled from the spec: inner product of a row of the fixed matrix with a coefficient
vector. -/
def S2U.dot {Real_t : Type} [Zero Real_t] [Add Real_t] [Mul Real_t]
    (row coeff : List Real_t) : Real_t :=
  (List.zipWith (fun a b => a * b) row coeff).foldr (fun a acc => a + acc) 0

/-- Modelled from the spec: the fixed linear map, scaled by the level's physical scale
factor, applied to a coefficient vector. -/
def S2U.apply {Real_t : Type} [Zero Real_t] [Add Real_t] [Mul Real_t]
    (m : S2U Real_t) (level : Int) (coeff : Vector Real_t) : Vector Real_t :=
  ⟨m.M.map (fun row => m.scal level * S2U.dot row coeff.data)⟩

/-- Modelled from the spec: what `InitMultipole` does on one node (its body is in
fmm_cheb.txx, outside fmm_cheb.hpp). "For each non-ghost leaf, derives the initial upward-pass compressed
representation directly from the node's own Chebyshev density coefficients via a fixed
linear map"; the representation "is overwritten, never appended". -/
def FMM_Cheb.InitMultipole_node {Real_t : Type} [Zero Real_t] [Add Real_t] [Mul Real_t]
    (m : S2U Real_t) (level : Int) (node : FMMNode Real_t) : FMMNode Real_t :=
  if node.IsLeaf && !node.IsGhost then
    { node with
      FMMData := { node.FMMData with upward_equiv := m.apply level node.ChebData } }
  else node

/-- Modelled from the spec: `InitMultipole(nodes, n, level)` (declared in fmm_cheb.hpp,
line 72; defined in fmm_cheb.txx): the per-node step on every entry of the array. -/
def FMM_Cheb.InitMultipole {Real_t : Type} [Zero Real_t] [Add Real_t] [Mul Real_t]
    (m : S2U Real_t) (nodes : List Ptr) (level : Int) (mem : Heap Real_t) : Heap Real_t :=
  nodes.foldl (fun h p => h.write p (FMM_Cheb.InitMultipole_node m level (h p))) mem

/-! ## Interaction classification of the setup steps (spec section 4.3) -/

/-- Modelled from the spec: the geometric predicates of the octree node interface that the
setup steps consult (`U_ListSetup`, `W_ListSetup`, `X_ListSetup` are only declared in
fmm_cheb.hpp, lines 77-95; the octree geometry is external).
`adjacent` is the fixed adjacency predicate of the tie-break rule, `inRegion` the bounded
interaction region, `wellSeparated` the ancestor/descendant relation across well-separated
regions. -/
structure TreeGeom (Node : Type) where
  level : Node → Nat
  adjacent : Node → Node → Bool
  inRegion : Node → Node → Bool
  wellSeparated : Node → Node → Bool

/-- Modelled from the spec: the four classifications of a (source, target) pair. -/
inductive Interaction where
  | nearField
  | sameLevel
  | crossLevel
  | noInteraction
deriving DecidableEq

/-- Modelled from the spec: near-field (U-list) is "geometric adjacency at the same level
including self". -/
def TreeGeom.isNearField {Node : Type} (g : TreeGeom Node) (s t : Node) : Bool :=
  g.level s == g.level t && g.adjacent s t

/-- Modelled from the spec: same-level well-separated is "same level, not adjacent, inside
a bounded interaction region". -/
def TreeGeom.isSameLevel {Node : Type} (g : TreeGeom Node) (s t : Node) : Bool :=
  g.level s == g.level t && !g.adjacent s t && g.inRegion s t

/-- Modelled from the spec: W-list, cross-level well-separated with the source on a finer
level than the target. -/
def TreeGeom.isWList {Node : Type} (g : TreeGeom Node) (s t : Node) : Bool :=
  decide (g.level t < g.level s) && g.wellSeparated s t

/-- Modelled from the spec: X-list, cross-level well-separated with the source on a coarser
level than the target. -/
def TreeGeom.isXList {Node : Type} (g : TreeGeom Node) (s t : Node) : Bool :=
  decide (g.level s < g.level t) && g.wellSeparated s t

/-- Modelled from the spec: whether a classification applies to the pair (source `s`,
target `t`); "no interaction" is the absence of the three interactions. -/
def TreeGeom.applies {Node : Type} (g : TreeGeom Node) (c : Interaction) (s t : Node) :
    Bool :=
  match c with
  | .nearField => g.isNearField s t
  | .sameLevel => g.isSameLevel s t
  | .crossLevel => g.isWList s t || g.isXList s t
  | .noInteraction =>
    !(g.isNearField s t || g.isSameLevel s t || g.isWList s t || g.isXList s t)

/-- Modelled from the spec: `U_ListSetup` for one target, "enumerates, for every target
node, the set of source nodes in the category's defining relation". -/
def TreeGeom.U_ListSetup {Node : Type} (g : TreeGeom Node) (nodes : List Node) (t : Node) :
    List Node :=
  nodes.filter (fun s => g.isNearField s t)

/-- Modelled from the spec: the same-level well-separated setup for one target. -/
def TreeGeom.V_ListSetup {Node : Type} (g : TreeGeom Node) (nodes : List Node) (t : Node) :
    List Node :=
  nodes.filter (fun s => g.isSameLevel s t)

/-- Modelled from the spec: `W_ListSetup` for one target. -/
def TreeGeom.W_ListSetup {Node : Type} (g : TreeGeom Node) (nodes : List Node) (t : Node) :
    List Node :=
  nodes.filter (fun s => g.isWList s t)

/-- Modelled from the spec: `X_ListSetup` for one target. -/
def TreeGeom.X_ListSetup {Node : Type} (g : TreeGeom Node) (nodes : List Node) (t : Node) :
    List Node :=
  nodes.filter (fun s => g.isXList s t)

/-! ## Concrete inputs -/

/-- An engine whose kernel has source dimension 1 and target dimension 3. -/
def exEngine : FMM_Cheb :=
  ⟨⟨fun k => if k = 0 then 1 else 3⟩, 4⟩

/-- A heap over `Int`: node 0 is a non-ghost leaf whose `ChebData` (length 1) disagrees
with its `cheb_out` (length 2); node 1 is a ghost leaf; node 2 is a non-leaf; node 3 is a
non-ghost leaf with matching lengths; every other node is a non-ghost leaf with empty
vectors. -/
def exMem : Heap Int := fun p =>
  match p with
  | 0 => ⟨true, false, 0, ⟨[1]⟩, ⟨⟨[]⟩, ⟨[2, 3]⟩⟩⟩
  | 1 => ⟨true, true, 7, ⟨[5, 6]⟩, ⟨⟨[]⟩, ⟨[8, 9]⟩⟩⟩
  | 2 => ⟨false, false, 7, ⟨[4]⟩, ⟨⟨[]⟩, ⟨[0]⟩⟩⟩
  | 3 => ⟨true, false, 1, ⟨[1, 1]⟩, ⟨⟨[]⟩, ⟨[7, 7]⟩⟩⟩
  | _ => ⟨true, false, 0, ⟨[]⟩, ⟨⟨[]⟩, ⟨[]⟩⟩⟩

/-- A 2x2 linear map over `Int` with scale factor `level + 1`. -/
def exS2U : S2U Int :=
  ⟨[[1, 2], [3, 4]], fun level => level + 1⟩

/-- One-dimensional boxes `(level, index)`: adjacency is index distance at most one, the
interaction region is index distance at most three, and a pair on different levels is
well separated when the coarser box does not contain the finer one. -/
def exGeom : TreeGeom (Nat × Nat) where
  level := fun a => a.1
  adjacent := fun a b => decide (a.2 ≤ b.2 + 1 ∧ b.2 ≤ a.2 + 1)
  inRegion := fun a b => decide (a.2 ≤ b.2 + 3 ∧ b.2 ≤ a.2 + 3)
  wellSeparated := fun a b =>
    if a.1 < b.1 then decide (b.2 / 2 ^ (b.1 - a.1) ≠ a.2)
    else decide (a.2 / 2 ^ (a.1 - b.1) ≠ b.2)

/-! ## Helper lemmas -/

/-- A loop that rewrites each listed node by an idempotent step `f` has a closed form: a
node is rewritten exactly when its pointer is listed, and then it is `f` of its initial
state. -/
theorem Heap.foldl_write_apply {Real_t : Type} (f : FMMNode Real_t → FMMNode Real_t)
    (hf : ∀ x, f (f x) = f x) (nodes : List Ptr) (mem : Heap Real_t) (q : Ptr) :
    (nodes.foldl (fun m p => Heap.write m p (f (m p))) mem) q
      = if q ∈ nodes then f (mem q) else mem q := by
  induction nodes generalizing mem with
  | nil => simp
  | cons p nodes ih =>
    rw [List.foldl_cons, ih]
    by_cases hqp : q = p
    · subst hqp
      by_cases hq : q ∈ nodes
      · simp [hq, Heap.write, hf]
      · simp [hq, Heap.write]
    · by_cases hq : q ∈ nodes
      · simp [hq, hqp, Heap.write]
      · simp [hq, hqp, Heap.write]

theorem CopyOutput_node_idem {Real_t : Type} [Inhabited Real_t] (self : FMM_Cheb)
    (node : FMMNode Real_t) :
    self.CopyOutput_node (self.CopyOutput_node node) = self.CopyOutput_node node := by
  unfold FMM_Cheb.CopyOutput_node
  by_cases h : (node.IsLeaf && !node.IsGhost) = true
  · simp [h, Vector.assign, Vector.Dim]
  · simp [h]

/-- Closed form of the loop of `CopyOutput`. -/
theorem CopyOutput_loop_apply {Real_t : Type} [Inhabited Real_t] (self : FMM_Cheb)
    (nodes : List Ptr) (mem : Heap Real_t) (q : Ptr) :
    self.CopyOutput_loop nodes mem q
      = if q ∈ nodes then self.CopyOutput_node (mem q) else mem q :=
  Heap.foldl_write_apply self.CopyOutput_node (CopyOutput_node_idem self) nodes mem q

theorem CopyOutput_loop_getElem {Real_t : Type} [Inhabited Real_t] (self : FMM_Cheb)
    (nodes : List Ptr) (mem : Heap Real_t) (i : Nat) (hi : i < nodes.length) :
    self.CopyOutput_loop nodes mem nodes[i] = self.CopyOutput_node (mem nodes[i]) := by
  rw [CopyOutput_loop_apply, if_pos (List.getElem_mem hi)]

/-- The loop body on a non-ghost leaf: the target dimension is stored and `ChebData` is
the assignment of `cheb_out` to the (possibly reinitialized) old vector. -/
theorem CopyOutput_node_leaf {Real_t : Type} [Inhabited Real_t] (self : FMM_Cheb)
    (node : FMMNode Real_t) (hleaf : node.IsLeaf = true) (hghost : node.IsGhost = false) :
    self.CopyOutput_node node =
      { node with
        DataDOF := self.kernel.ker_dim 1
        ChebData :=
          (if node.ChebData.Dim != node.FMMData.cheb_out.Dim then node.ChebData.ReInit 0
            else node.ChebData).assign node.FMMData.cheb_out } := by
  simp [FMM_Cheb.CopyOutput_node, hleaf, hghost]

/-- The loop body on a ghost or a non-leaf: only `DataDOF` is stored. -/
theorem CopyOutput_node_skip {Real_t : Type} [Inhabited Real_t] (self : FMM_Cheb)
    (node : FMMNode Real_t) (h : node.IsGhost = true ∨ node.IsLeaf = false) :
    self.CopyOutput_node node = { node with DataDOF := self.kernel.ker_dim 1 } := by
  rcases h with h | h <;> simp [FMM_Cheb.CopyOutput_node, h]

theorem CopyOutput_node_cheb_out {Real_t : Type} [Inhabited Real_t] (self : FMM_Cheb)
    (node : FMMNode Real_t) : (self.CopyOutput_node node).FMMData = node.FMMData := by
  unfold FMM_Cheb.CopyOutput_node
  by_cases h : (node.IsLeaf && !node.IsGhost) = true
  · simp [h]
  · simp [h]

theorem CopyOutput_node_DataDOF {Real_t : Type} [Inhabited Real_t] (self : FMM_Cheb)
    (node : FMMNode Real_t) : (self.CopyOutput_node node).DataDOF = self.kernel.ker_dim 1 := by
  unfold FMM_Cheb.CopyOutput_node
  by_cases h : (node.IsLeaf && !node.IsGhost) = true
  · simp [h]
  · simp [h]

/-- Two arrays with the same entries give the same final heap. -/
theorem CopyOutput_loop_congr {Real_t : Type} [Inhabited Real_t] (self : FMM_Cheb)
    (nodes nodes' : List Ptr) (mem : Heap Real_t) (h : ∀ p, p ∈ nodes' ↔ p ∈ nodes) :
    self.CopyOutput_loop nodes' mem = self.CopyOutput_loop nodes mem := by
  funext q
  simp only [CopyOutput_loop_apply, h q]

theorem InitMultipole_node_idem {Real_t : Type} [Zero Real_t] [Add Real_t] [Mul Real_t]
    (m : S2U Real_t) (level : Int) (node : FMMNode Real_t) :
    FMM_Cheb.InitMultipole_node m level (FMM_Cheb.InitMultipole_node m level node)
      = FMM_Cheb.InitMultipole_node m level node := by
  unfold FMM_Cheb.InitMultipole_node
  by_cases h : (node.IsLeaf && !node.IsGhost) = true
  · simp [h]
  · simp [h]

/-- Closed form of the multipole initializer. -/
theorem InitMultipole_apply {Real_t : Type} [Zero Real_t] [Add Real_t] [Mul Real_t]
    (m : S2U Real_t) (nodes : List Ptr) (level : Int) (mem : Heap Real_t) (q : Ptr) :
    FMM_Cheb.InitMultipole m nodes level mem q
      = if q ∈ nodes then FMM_Cheb.InitMultipole_node m level (mem q) else mem q :=
  Heap.foldl_write_apply (FMM_Cheb.InitMultipole_node m level)
    (InitMultipole_node_idem m level) nodes mem q

theorem InitMultipole_node_ChebData {Real_t : Type} [Zero Real_t] [Add Real_t]
    [Mul Real_t] (m : S2U Real_t) (level : Int) (node : FMMNode Real_t) :
    (FMM_Cheb.InitMultipole_node m level node).ChebData = node.ChebData := by
  unfold FMM_Cheb.InitMultipole_node
  by_cases h : (node.IsLeaf && !node.IsGhost) = true
  · simp [h]
  · simp [h]

/-- The classes that apply to a pair, read off the four defining predicates. -/
theorem TreeGeom.applies_cases {Node : Type} (g : TreeGeom Node) (s t : Node) :
    (g.applies .nearField s t = true ↔ (g.level s = g.level t ∧ g.adjacent s t = true))
      ∧ (g.applies .sameLevel s t = true ↔
          (g.level s = g.level t ∧ g.adjacent s t = false ∧ g.inRegion s t = true))
      ∧ (g.applies .crossLevel s t = true ↔
          (g.level s ≠ g.level t ∧ g.wellSeparated s t = true)) := by
  refine ⟨?_, ?_, ?_⟩
  · simp [TreeGeom.applies, TreeGeom.isNearField]
  · simp [TreeGeom.applies, TreeGeom.isSameLevel, and_assoc]
  · simp only [TreeGeom.applies, TreeGeom.isWList, TreeGeom.isXList, Bool.or_eq_true,
      Bool.and_eq_true, decide_eq_true_eq]
    constructor
    · rintro (⟨h, hw⟩ | ⟨h, hw⟩)
      · exact ⟨by omega, hw⟩
      · exact ⟨by omega, hw⟩
    · rintro ⟨h, hw⟩
      rcases Nat.lt_or_gt_of_ne h with h | h
      · exact Or.inr ⟨h, hw⟩
      · exact Or.inl ⟨h, hw⟩

/-! ## The output merger: `FMM_Cheb::CopyOutput` -/

/-- C1: for every array of nodes and every index `i < n` such that `nodes[i]` is a leaf and
not a ghost, after the loop of `CopyOutput` the node's `ChebData()` has the same length and
the same entries as the node's `cheb_out`, whatever `ChebData()` held before; `cheb_out`
itself is the one the node had before the loop. -/
theorem CopyOutput_copies_cheb_out {Real_t : Type} [Inhabited Real_t] (self : FMM_Cheb)
    (nodes : List Ptr) (mem : Heap Real_t) (i : Nat) (hi : i < nodes.length)
    (hleaf : (mem nodes[i]).IsLeaf = true) (hghost : (mem nodes[i]).IsGhost = false) :
    (self.CopyOutput_loop nodes mem nodes[i]).ChebData.Dim
        = (self.CopyOutput_loop nodes mem nodes[i]).FMMData.cheb_out.Dim
      ∧ (self.CopyOutput_loop nodes mem nodes[i]).ChebData
        = (self.CopyOutput_loop nodes mem nodes[i]).FMMData.cheb_out
      ∧ (self.CopyOutput_loop nodes mem nodes[i]).FMMData.cheb_out
        = (mem nodes[i]).FMMData.cheb_out := by
  rw [CopyOutput_loop_getElem, CopyOutput_node_leaf self _ hleaf hghost]
  simp [Vector.assign]

theorem CopyOutput_copies_cheb_out_witness :
    (exEngine.CopyOutput_loop [3, 0, 1] exMem 0).ChebData.Dim = 2
      ∧ (exEngine.CopyOutput_loop [3, 0, 1] exMem 0).ChebData = ⟨[2, 3]⟩
      ∧ (exEngine.CopyOutput_loop [3, 0, 1] exMem 0).FMMData.cheb_out = ⟨[2, 3]⟩ :=
  CopyOutput_copies_cheb_out exEngine [3, 0, 1] exMem 1 (by decide) (by decide) (by decide)

/-- C2: for every node of the array that is a ghost, and likewise for every node that is
not a leaf, the loop of `CopyOutput` leaves the node's `ChebData()` unchanged, whatever its
`cheb_out` holds. -/
theorem CopyOutput_skips_ghost_and_nonleaf {Real_t : Type} [Inhabited Real_t]
    (self : FMM_Cheb) (nodes : List Ptr) (mem : Heap Real_t) (i : Nat)
    (hi : i < nodes.length)
    (h : (mem nodes[i]).IsGhost = true ∨ (mem nodes[i]).IsLeaf = false) :
    (self.CopyOutput_loop nodes mem nodes[i]).ChebData = (mem nodes[i]).ChebData := by
  rw [CopyOutput_loop_getElem, CopyOutput_node_skip self _ h]

theorem CopyOutput_skips_ghost_and_nonleaf_witness :
    (exEngine.CopyOutput_loop [3, 0, 1] exMem 1).ChebData = ⟨[5, 6]⟩ :=
  CopyOutput_skips_ghost_and_nonleaf exEngine [3, 0, 1] exMem 2 (by decide)
    (Or.inl (by decide))

/-- C4: the loop of `CopyOutput` is a total function of the array and the heap (there is
no failing path), and a length mismatch at `nodes[i]` stays local: whatever vector `v`
replaces the `ChebData()` of `nodes[i]` (in particular one of the matching length where the
original length disagrees with `cheb_out`), every other node `nodes[j]` ends in the same
state, with the same `ChebData()` and `DataDOF()`. -/
theorem CopyOutput_mismatch_is_local {Real_t : Type} [Inhabited Real_t] (self : FMM_Cheb)
    (nodes : List Ptr) (mem : Heap Real_t) (v : Vector Real_t) (i j : Nat)
    (hi : i < nodes.length) (hj : j < nodes.length)
    (hother : nodes[j] ≠ nodes[i]) :
    self.CopyOutput_loop nodes mem nodes[j]
        = self.CopyOutput_loop nodes
            (mem.write nodes[i] { mem nodes[i] with ChebData := v }) nodes[j]
      ∧ (self.CopyOutput_loop nodes mem nodes[j]).ChebData
        = (self.CopyOutput_loop nodes
            (mem.write nodes[i] { mem nodes[i] with ChebData := v }) nodes[j]).ChebData
      ∧ (self.CopyOutput_loop nodes mem nodes[j]).DataDOF
        = (self.CopyOutput_loop nodes
            (mem.write nodes[i] { mem nodes[i] with ChebData := v }) nodes[j]).DataDOF := by
  have key : self.CopyOutput_loop nodes mem nodes[j]
      = self.CopyOutput_loop nodes
          (mem.write nodes[i] { mem nodes[i] with ChebData := v }) nodes[j] := by
    rw [CopyOutput_loop_getElem, CopyOutput_loop_getElem]
    simp [Heap.write, hother]
  exact ⟨key, by rw [key], by rw [key]⟩

theorem CopyOutput_mismatch_is_local_witness :
    ((exMem 0).ChebData.Dim ≠ (exMem 0).FMMData.cheb_out.Dim
        ∧ (⟨[4, 4]⟩ : Vector Int).Dim = (exMem 0).FMMData.cheb_out.Dim)
      ∧ exEngine.CopyOutput_loop [0, 1, 3] exMem 3
        = exEngine.CopyOutput_loop [0, 1, 3]
            (exMem.write 0 { exMem 0 with ChebData := ⟨[4, 4]⟩ }) 3
      ∧ (exEngine.CopyOutput_loop [0, 1, 3] exMem 3).ChebData
        = (exEngine.CopyOutput_loop [0, 1, 3]
            (exMem.write 0 { exMem 0 with ChebData := ⟨[4, 4]⟩ }) 3).ChebData
      ∧ (exEngine.CopyOutput_loop [0, 1, 3] exMem 3).DataDOF
        = (exEngine.CopyOutput_loop [0, 1, 3]
            (exMem.write 0 { exMem 0 with ChebData := ⟨[4, 4]⟩ }) 3).DataDOF :=
  ⟨by decide,
    CopyOutput_mismatch_is_local exEngine [0, 1, 3] exMem ⟨[4, 4]⟩ 0 2 (by decide)
      (by decide) (by decide)⟩

/-- C8: after the loop of `CopyOutput`, `DataDOF()` of every node of the array, ghosts and
non-leaves included, is the kernel's target dimension `ker_dim[1]`. -/
theorem CopyOutput_sets_DataDOF {Real_t : Type} [Inhabited Real_t] (self : FMM_Cheb)
    (nodes : List Ptr) (mem : Heap Real_t) (i : Nat) (hi : i < nodes.length) :
    (self.CopyOutput_loop nodes mem nodes[i]).DataDOF = self.kernel.ker_dim 1 := by
  rw [CopyOutput_loop_getElem, CopyOutput_node_DataDOF]

theorem CopyOutput_sets_DataDOF_witness :
    (exEngine.CopyOutput_loop [0, 1, 2] exMem 2).DataDOF = 3
      ∧ (exEngine.CopyOutput_loop [0, 1, 2] exMem 1).DataDOF = 3 :=
  ⟨CopyOutput_sets_DataDOF exEngine [0, 1, 2] exMem 2 (by decide),
    CopyOutput_sets_DataDOF exEngine [0, 1, 2] exMem 1 (by decide)⟩

/-- C9: the loop of `CopyOutput` is idempotent, and it only reads `cheb_out`: running it
twice in a row gives the same heap (so the same `ChebData()` and `DataDOF()` on every node)
as running it once, and every node's `cheb_out` is after the loop what it was before. -/
theorem CopyOutput_loop_idempotent {Real_t : Type} [Inhabited Real_t] (self : FMM_Cheb)
    (nodes : List Ptr) (mem : Heap Real_t) :
    self.CopyOutput_loop nodes (self.CopyOutput_loop nodes mem)
        = self.CopyOutput_loop nodes mem
      ∧ ∀ p, (self.CopyOutput_loop nodes mem p).FMMData.cheb_out
          = (mem p).FMMData.cheb_out := by
  refine ⟨?_, ?_⟩
  · funext q
    simp only [CopyOutput_loop_apply]
    by_cases hq : q ∈ nodes
    · simp [hq, CopyOutput_node_idem]
    · simp [hq]
  · intro p
    rw [CopyOutput_loop_apply]
    by_cases hp : p ∈ nodes
    · simp [hp, CopyOutput_node_cheb_out]
    · simp [hp]

/-- C10: the result of the loop of `CopyOutput` depends only on which nodes the array
lists, not on their order or on repetitions: a permutation of the array, an array with the
same entries listed any number of times, and the array with every node listed once all
give the same final heap. -/
theorem CopyOutput_order_independent {Real_t : Type} [Inhabited Real_t] (self : FMM_Cheb)
    (nodes nodes' : List Ptr) (mem : Heap Real_t) :
    (nodes'.Perm nodes → self.CopyOutput_loop nodes' mem = self.CopyOutput_loop nodes mem)
      ∧ ((∀ p, p ∈ nodes' ↔ p ∈ nodes) →
          self.CopyOutput_loop nodes' mem = self.CopyOutput_loop nodes mem)
      ∧ self.CopyOutput_loop nodes.dedup mem = self.CopyOutput_loop nodes mem := by
  refine ⟨fun h => ?_, fun h => ?_, ?_⟩
  · exact CopyOutput_loop_congr self nodes nodes' mem (fun p => h.mem_iff)
  · exact CopyOutput_loop_congr self nodes nodes' mem h
  · exact CopyOutput_loop_congr self nodes nodes.dedup mem (fun p => List.mem_dedup)

theorem CopyOutput_order_independent_witness :
    exEngine.CopyOutput_loop [1, 3, 0] exMem = exEngine.CopyOutput_loop [0, 1, 3] exMem
      ∧ exEngine.CopyOutput_loop [0, 3, 0, 1, 1] exMem
          = exEngine.CopyOutput_loop [0, 1, 3] exMem :=
  ⟨(CopyOutput_order_independent exEngine [0, 1, 3] [1, 3, 0] exMem).1 (by decide),
    (CopyOutput_order_independent exEngine [0, 1, 3] [0, 3, 0, 1, 1] exMem).2.1
      (fun p => by simp; tauto)⟩

/-! ## The multipole initializer -/

/-- C7: `InitMultipole(nodes, n, level)` is idempotent and skips ghosts: a second call on
the result of the first changes nothing (the Chebyshev density coefficients are not written
by it), a ghost node is left as it was, and the upward representation of every non-ghost
leaf of the array is the scaled linear map applied to that node's own density coefficients,
a function of these coefficients and of the level only. -/
theorem InitMultipole_idempotent_skips_ghosts {Real_t : Type} [Zero Real_t] [Add Real_t]
    [Mul Real_t] (m : S2U Real_t) (nodes : List Ptr) (level : Int) (mem : Heap Real_t) :
    FMM_Cheb.InitMultipole m nodes level (FMM_Cheb.InitMultipole m nodes level mem)
        = FMM_Cheb.InitMultipole m nodes level mem
      ∧ (∀ p, (FMM_Cheb.InitMultipole m nodes level mem p).ChebData = (mem p).ChebData)
      ∧ (∀ p, (mem p).IsGhost = true → FMM_Cheb.InitMultipole m nodes level mem p = mem p)
      ∧ (∀ p, p ∈ nodes → (mem p).IsLeaf = true → (mem p).IsGhost = false →
          (FMM_Cheb.InitMultipole m nodes level mem p).FMMData.upward_equiv
            = m.apply level (mem p).ChebData) := by
  refine ⟨?_, ?_, ?_, ?_⟩
  · funext q
    simp only [InitMultipole_apply]
    by_cases hq : q ∈ nodes
    · simp [hq, InitMultipole_node_idem]
    · simp [hq]
  · intro p
    rw [InitMultipole_apply]
    by_cases hp : p ∈ nodes
    · simp [hp, InitMultipole_node_ChebData]
    · simp [hp]
  · intro p hg
    rw [InitMultipole_apply]
    by_cases hp : p ∈ nodes
    · simp [hp, FMM_Cheb.InitMultipole_node, hg]
    · simp [hp]
  · intro p hp hl hg
    rw [InitMultipole_apply, if_pos hp]
    simp [FMM_Cheb.InitMultipole_node, hl, hg]

theorem InitMultipole_idempotent_skips_ghosts_witness :
    FMM_Cheb.InitMultipole exS2U [3, 1] 2 exMem 1 = exMem 1
      ∧ (FMM_Cheb.InitMultipole exS2U [3, 1] 2 exMem 3).FMMData.upward_equiv = ⟨[9, 21]⟩ :=
  ⟨(InitMultipole_idempotent_skips_ghosts exS2U [3, 1] 2 exMem).2.2.1 1 (by decide),
    (InitMultipole_idempotent_skips_ghosts exS2U [3, 1] 2 exMem).2.2.2 3 (by decide)
      (by decide) (by decide)⟩

/-! ## Interaction classification -/

/-- C5: for any two nodes (source `s`, target `t`) exactly one of the classifications
near-field, same-level well-separated, cross-level well-separated, no interaction applies,
and for every node list the setup steps for target `t` place `s` in at most one of the
U-, same-level, W- and X-lists. -/
theorem setup_classification_exactly_one {Node : Type} (g : TreeGeom Node) (s t : Node) :
    (∃! c : Interaction, g.applies c s t = true)
      ∧ ∀ nodes : List Node,
          ¬ (s ∈ g.U_ListSetup nodes t ∧ s ∈ g.V_ListSetup nodes t)
        ∧ ¬ (s ∈ g.U_ListSetup nodes t ∧ s ∈ g.W_ListSetup nodes t)
        ∧ ¬ (s ∈ g.U_ListSetup nodes t ∧ s ∈ g.X_ListSetup nodes t)
        ∧ ¬ (s ∈ g.V_ListSetup nodes t ∧ s ∈ g.W_ListSetup nodes t)
        ∧ ¬ (s ∈ g.V_ListSetup nodes t ∧ s ∈ g.X_ListSetup nodes t)
        ∧ ¬ (s ∈ g.W_ListSetup nodes t ∧ s ∈ g.X_ListSetup nodes t) := by
  obtain ⟨hN, hS, hC⟩ := g.applies_cases s t
  have hnone : g.applies .noInteraction s t = true ↔
      (g.applies .nearField s t = false ∧ g.applies .sameLevel s t = false
        ∧ g.applies .crossLevel s t = false) := by
    simp [TreeGeom.applies, and_assoc]
  constructor
  · by_cases h1 : g.applies .nearField s t = true
    · refine ⟨.nearField, h1, ?_⟩
      intro c hc
      cases c with
      | nearField => rfl
      | sameLevel => have := (hS.1 hc).2.1; have := (hN.1 h1).2; simp_all
      | crossLevel => have := (hC.1 hc).1; have := (hN.1 h1).1; contradiction
      | noInteraction => have := (hnone.1 hc).1; simp_all
    · by_cases h2 : g.applies .sameLevel s t = true
      · refine ⟨.sameLevel, h2, ?_⟩
        intro c hc
        cases c with
        | nearField => contradiction
        | sameLevel => rfl
        | crossLevel => have := (hC.1 hc).1; have := (hS.1 h2).1; contradiction
        | noInteraction => have := (hnone.1 hc).2.1; simp_all
      · by_cases h3 : g.applies .crossLevel s t = true
        · refine ⟨.crossLevel, h3, ?_⟩
          intro c hc
          cases c with
          | nearField => contradiction
          | sameLevel => contradiction
          | crossLevel => rfl
          | noInteraction => have := (hnone.1 hc).2.2; simp_all
        · refine ⟨.noInteraction, hnone.2 ⟨by simpa using h1, by simpa using h2,
            by simpa using h3⟩, ?_⟩
          intro c hc
          cases c with
          | nearField => contradiction
          | sameLevel => contradiction
          | crossLevel => contradiction
          | noInteraction => rfl
  · intro nodes
    simp only [TreeGeom.U_ListSetup, TreeGeom.V_ListSetup, TreeGeom.W_ListSetup,
      TreeGeom.X_ListSetup, List.mem_filter, TreeGeom.isNearField, TreeGeom.isSameLevel,
      TreeGeom.isWList, TreeGeom.isXList, Bool.and_eq_true, decide_eq_true_eq, beq_iff_eq,
      Bool.not_eq_true']
    refine ⟨?_, ?_, ?_, ?_, ?_, ?_⟩
    · rintro ⟨⟨_, _, ha⟩, _, ⟨_, hna⟩, _⟩
      rw [ha] at hna
      exact Bool.noConfusion hna
    · rintro ⟨⟨_, hl, _⟩, _, hl', _⟩
      omega
    · rintro ⟨⟨_, hl, _⟩, _, hl', _⟩
      omega
    · rintro ⟨⟨_, ⟨hl, _⟩, _⟩, _, hl', _⟩
      omega
    · rintro ⟨⟨_, ⟨hl, _⟩, _⟩, _, hl', _⟩
      omega
    · rintro ⟨⟨_, hl, _⟩, _, hl', _⟩
      omega

theorem setup_classification_exactly_one_witness :
    (∃! c : Interaction, exGeom.applies c (2, 5) (2, 4) = true)
      ∧ exGeom.applies .nearField (2, 5) (2, 4) = true
      ∧ exGeom.U_ListSetup [(2, 5), (2, 7), (3, 14), (1, 0)] (2, 4) = [(2, 5)]
      ∧ exGeom.V_ListSetup [(2, 5), (2, 7), (3, 14), (1, 0)] (2, 4) = [(2, 7)]
      ∧ exGeom.W_ListSetup [(2, 5), (2, 7), (3, 14), (1, 0)] (2, 4) = [(3, 14)]
      ∧ exGeom.X_ListSetup [(2, 5), (2, 7), (3, 14), (1, 0)] (2, 4) = [(1, 0)] :=
  ⟨(setup_classification_exactly_one exGeom (2, 5) (2, 4)).1, by decide, by decide,
    by decide, by decide, by decide⟩

end pvfmm
